import Mathlib

/-!
Verification development for the euron arithmetic-expression interpreter
(`src/interpretor.ts`): a lexer, a recursive-descent parser producing an AST,
an evaluating visitor (`ASTCalculatorVisitor`) and a printing visitor
(`ASTPrinterVisitor`).

Modelling conventions:
* JavaScript numbers are modelled exactly as unnormalized integer fractions
  (`JSNumber`), bridged to `ℚ` by `JSNumber.toRat` for statements.  All the
  concrete arithmetic exercised here is exact in IEEE-754 doubles as well, so
  the rational model agrees with the JavaScript values on every program
  considered.  Non-finite doubles (division by zero, overflow) are outside the
  model; no statement below depends on them.
* The recursive lexer helper, the recursive-descent parser and the factorial
  loop are given explicit fuel so that every definition is structurally
  recursive and kernel-reducible; the public wrappers supply fuel that is
  always sufficient for terminating runs of the JavaScript original.
* JavaScript `undefined`-returning lookups are modelled with `Option`;
  a property access on `null` uses the JavaScript string coercion "null".
* `Array.prototype.pop` on an empty stack yields `undefined` in JavaScript and
  would poison the subsequent computation; the model makes this an explicit
  error value.  The parser never produces a tree that underflows the stack.
-/

deriving instance DecidableEq for Except

namespace Euron

/-- Token kinds, mirroring `enum TokenType` in the source. -/
inductive TokenType where
  | ID
  | NUMBER
  | ASSIGN
  | LPAREN
  | RPAREN
  | COMMA
  | SEMICOLON
  | PLUS
  | MINUS
  | MULT
  | DIVI
  | POW
  | FACTORIAL
  | EOL
  | EOF
deriving DecidableEq, Repr

/-- A token: a kind plus an optional literal payload (`value: string = null`). -/
structure Token where
  type : TokenType
  value : Option String
deriving DecidableEq, Repr

/-- Exact model of a JavaScript number as an unnormalized fraction.
`den = 0` would correspond to a non-finite double and never occurs in the
programs considered here. -/
structure JSNumber where
  num : Int
  den : Int
deriving DecidableEq, Repr

/-- Normalize the sign so that a denominator produced by arithmetic is
nonnegative; this does not change the represented rational. -/
def JSNumber.fixSign (q : JSNumber) : JSNumber :=
  if q.den < 0 then ⟨-q.num, -q.den⟩ else q

/-- Addition of fractions. -/
def JSNumber.add (x y : JSNumber) : JSNumber :=
  JSNumber.fixSign ⟨x.num * y.den + y.num * x.den, x.den * y.den⟩

/-- Subtraction of fractions. -/
def JSNumber.sub (x y : JSNumber) : JSNumber :=
  JSNumber.fixSign ⟨x.num * y.den - y.num * x.den, x.den * y.den⟩

/-- Multiplication of fractions. -/
def JSNumber.mul (x y : JSNumber) : JSNumber :=
  JSNumber.fixSign ⟨x.num * y.num, x.den * y.den⟩

/-- Division of fractions (division by zero yields a `den = 0` fraction,
the model's stand-in for a non-finite double). -/
def JSNumber.div (x y : JSNumber) : JSNumber :=
  JSNumber.fixSign ⟨x.num * y.den, x.den * y.num⟩

/-- The comparison `x <= y` by cross multiplication; faithful whenever both
denominators are positive, which holds for every value arising in the
programs considered. -/
def JSNumber.le (x y : JSNumber) : Bool :=
  decide (x.num * y.den ≤ y.num * x.den)

/-- An integer as a `JSNumber`. -/
def JSNumber.ofInt (n : Int) : JSNumber := ⟨n, 1⟩

/-- The rational value represented by a `JSNumber`. -/
def JSNumber.toRat (q : JSNumber) : ℚ := (q.num : ℚ) / (q.den : ℚ)

/-- The IEEE-754 double closest to pi, the exact value of `Math.PI`. -/
def piVal : JSNumber := ⟨884279719003555, 281474976710656⟩

/-- The IEEE-754 double closest to Euler's number, the exact value of `Math.E`. -/
def eVal : JSNumber := ⟨6121026514868073, 2251799813685248⟩

/-! ## Lexer -/

/-- Lexical error: the source throws on an unexpected character
(`wooops! unespected char ...`).  `fuelExhausted` is an artifact of the fuel
encoding; the wrapper `Lexer.nextToken` always supplies sufficient fuel. -/
inductive LexErr where
  | unexpectedChar (c : Char)
  | fuelExhausted
deriving DecidableEq, Repr

/-- The characters the `nextToken` switch treats as horizontal whitespace
(`'\t'`, `'\v'`, `' '`, `'\f'`). -/
def Lexer.isHorizontalWS (c : Char) : Bool :=
  c = '\t' ∨ c = '\x0b' ∨ c = ' ' ∨ c = '\x0c'

/-- `isWhiteSpace`: the JavaScript regex `\s` tested on a single character
(ASCII part; the Unicode space characters also matched by `\s` cannot be fed
to the skip loop by any statement considered here). Note that this set
includes `'\n'` and `'\r'`. -/
def Lexer.isWhiteSpace (c : Char) : Bool :=
  c = ' ' ∨ c = '\t' ∨ c = '\n' ∨ c = '\x0b' ∨ c = '\x0c' ∨ c = '\r'

/-- `isNumber`: the regex `[\d\.]+?` tested on a single character. -/
def Lexer.isNumber (c : Char) : Bool :=
  c.isDigit ∨ c = '.'

/-- `isAlphaNumeric`: the regex `[a-zA-Z][a-zA-Z0-9]*` tested (as a substring
search) on a single character, which holds exactly for letters. -/
def Lexer.isAlphaNumeric (c : Char) : Bool :=
  ('a' ≤ c ∧ c ≤ 'z') ∨ ('A' ≤ c ∧ c ≤ 'Z')

/-- ASCII lowercasing of one character, as `String.prototype.toLowerCase`
acts on the identifier characters the lexer can produce. -/
def Lexer.lowerChar (c : Char) : Char :=
  if 'A' ≤ c ∧ c ≤ 'Z' then Char.ofNat (c.toNat + 32) else c

/-- The non-whitespace arms of the `nextToken` switch: the token produced
when the current character is not horizontal whitespace, together with the
remaining characters. -/
def Lexer.scanToken (c : Char) (cs : List Char) : Except LexErr (Token × List Char) :=
  if c = '\n' then .ok (⟨.EOL, some "\n"⟩, cs)
    else if c = ';' then .ok (⟨.SEMICOLON, some ";"⟩, cs)
    else if Lexer.isNumber c then
      .ok (⟨.NUMBER, some (String.mk ((c :: cs).takeWhile Lexer.isNumber))⟩,
        (c :: cs).dropWhile Lexer.isNumber)
    else if c = '+' then .ok (⟨.PLUS, some "+"⟩, cs)
    else if c = '-' then .ok (⟨.MINUS, some "-"⟩, cs)
    else if c = '*' then .ok (⟨.MULT, some "*"⟩, cs)
    else if c = '/' then .ok (⟨.DIVI, some "/"⟩, cs)
    else if c = '^' then .ok (⟨.POW, some "^"⟩, cs)
    else if c = '!' then .ok (⟨.FACTORIAL, some "!"⟩, cs)
    else if c = '=' then .ok (⟨.ASSIGN, some "="⟩, cs)
    else if c = '(' then .ok (⟨.LPAREN, some "("⟩, cs)
    else if c = ')' then .ok (⟨.RPAREN, none⟩, cs)
    else if c = ',' then .ok (⟨.COMMA, none⟩, cs)
    else if Lexer.isAlphaNumeric c then
      let idChars := (c :: cs).takeWhile Lexer.isAlphaNumeric
      let rest := (c :: cs).dropWhile Lexer.isAlphaNumeric
      let lower := String.mk (idChars.map Lexer.lowerChar)
      if lower = "e" then .ok (⟨.ID, some "e"⟩, rest)
      else if lower = "pi" then .ok (⟨.ID, some "pi"⟩, rest)
      else .ok (⟨.ID, some (String.mk idChars)⟩, rest)
    else .error (.unexpectedChar c)

/-- One step of `Lexer.nextToken`, operating on the remaining input
characters and returning the produced token together with the characters
after it.  The whitespace branch re-runs the scanner after consuming the
maximal run of `\s` characters, exactly as `readWhiteSpace` followed by the
recursive `this.nextToken()` call does; every other character is handled by
`scanToken`. -/
def Lexer.nextTokenF : Nat → List Char → Except LexErr (Token × List Char)
  | _, [] => .ok (⟨.EOF, none⟩, [])
  | 0, _ :: _ => .error .fuelExhausted
  | fuel + 1, c :: cs =>
    if Lexer.isHorizontalWS c then
      Lexer.nextTokenF fuel ((c :: cs).dropWhile Lexer.isWhiteSpace)
    else Lexer.scanToken c cs

/-- `nextToken` on the remaining input; the fuel `length + 1` is always
sufficient because every recursive step of the whitespace branch strictly
shortens the input. -/
def Lexer.nextToken (cs : List Char) : Except LexErr (Token × List Char) :=
  Lexer.nextTokenF (cs.length + 1) cs

/-- The token stream of an input: repeated `nextToken` until `EOF`.  The
stream excludes the terminating `EOF` token; the parser models the lexer's
"`EOF` forever afterwards" behavior separately. -/
def Lexer.tokenizeF : Nat → List Char → Except LexErr (List Token)
  | 0, _ => .error .fuelExhausted
  | fuel + 1, cs =>
    match Lexer.nextToken cs with
    | .error e => .error e
    | .ok (t, rest) =>
      if t.type = .EOF then .ok []
      else
        match Lexer.tokenizeF fuel rest with
        | .error e => .error e
        | .ok ts => .ok (t :: ts)

/-- Tokenize a whole input string.  Every non-`EOF` token consumes at least
one character, so fuel `length + 1` is always sufficient. -/
def Lexer.tokenize (s : String) : Except LexErr (List Token) :=
  Lexer.tokenizeF (s.data.length + 1) s.data

/-! ## AST -/

/-- The AST node variants, one constructor per `class ... extends AST` in the
source: `UnaryExpr`, `ValueExpr`, `RefExpr`, `FactorialExpr`, `BinaryExpr`,
`AssignExpr`, `StatementListExpr`. -/
inductive AST where
  | unary (opToken : TokenType) (e : AST)
  | value (num : Option String)
  | ref (constToken : Token)
  | factorial (factor : AST)
  | binary (left : AST) (token : TokenType) (right : AST)
  | assign (id : Token) (e : AST)
  | stmtList (statements : List AST)
deriving Repr

/-- `instanceof ValueExpr`. -/
def AST.isValueExpr : AST → Bool
  | .value _ => true
  | _ => false

/-- `instanceof FactorialExpr`. -/
def AST.isFactorialExpr : AST → Bool
  | .factorial _ => true
  | _ => false

/-- `instanceof RefExpr`. -/
def AST.isRefExpr : AST → Bool
  | .ref _ => true
  | _ => false

/-- `instanceof BinaryExpr`. -/
def AST.isBinaryExpr : AST → Bool
  | .binary _ _ _ => true
  | _ => false

/-- The JavaScript property access `node.token`: defined (the operator) only
on `BinaryExpr` nodes, `undefined` (here `none`) on every other variant. -/
def AST.tokenProp : AST → Option TokenType
  | .binary _ t _ => some t
  | _ => none

/-- An expression node: one produced by the `expr`/`term`/`factor` layer of
the parser, i.e. anything but an assignment or a statement list, closed under
taking operands. -/
def AST.isExprNode : AST → Bool
  | .value _ => true
  | .ref _ => true
  | .unary _ e => e.isExprNode
  | .factorial e => e.isExprNode
  | .binary l _ r => l.isExprNode && r.isExprNode
  | .assign _ _ => false
  | .stmtList _ => false

/-- A well-formed statement as produced by `declarations`: an assignment
whose right-hand side is an expression node. -/
def AST.isWfStatement : AST → Bool
  | .assign _ e => e.isExprNode
  | _ => false

/-- A well-formed program: a statement list of well-formed assignments,
the shape of every tree returned by `parse`. -/
def AST.isWfProgram : AST → Bool
  | .stmtList stmts => stmts.all AST.isWfStatement
  | _ => false

/-! ## Parser -/

/-- Syntax error thrown by `Parser.eat` (`Expect token ... but got ...`).
`fuelExhausted` is an artifact of the fuel encoding; the wrapper
`parseTokens` always supplies sufficient fuel for inputs the JavaScript
parser terminates on. -/
inductive SynErr where
  | expected (want got : TokenType)
  | fuelExhausted
deriving DecidableEq, Repr

/-- Pull the next token from the stream; an exhausted stream yields `EOF`
forever, as the lexer does once the cursor runs past the input. -/
def Parser.nextFromStream : List Token → Token × List Token
  | [] => (⟨.EOF, none⟩, [])
  | t :: ts => (t, ts)

/-- `Parser.eat`: check the current token's type and advance. -/
def Parser.eat (tokenType : TokenType) (cur : Token) (rest : List Token) :
    Except SynErr (Token × List Token) :=
  if cur.type = tokenType then .ok (Parser.nextFromStream rest)
  else .error (.expected tokenType cur.type)

mutual

/-- `Parser.expr`: `expr : term ((PLUS | MINUS) expr)?` — note the recursion
into `expr` (not `term`) for the tail, the source of right-associativity. -/
def Parser.expr : Nat → Token → List Token → Except SynErr (AST × Token × List Token)
  | 0, _, _ => .error .fuelExhausted
  | fuel + 1, cur, rest =>
    match Parser.term fuel cur rest with
    | .error e => .error e
    | .ok (t, cur1, rest1) =>
      if cur1.type = .PLUS ∨ cur1.type = .MINUS then
        match Parser.eat cur1.type cur1 rest1 with
        | .error e => .error e
        | .ok (cur2, rest2) =>
          match Parser.expr fuel cur2 rest2 with
          | .error e => .error e
          | .ok (rTerm, cur3, rest3) => .ok (.binary t cur1.type rTerm, cur3, rest3)
      else .ok (t, cur1, rest1)

/-- `Parser.term`: `term : factor (NUMBER-lookahead implicit MULT | (MUL | DIV | POW) term)?`
— the implicit-multiplication branch fires exactly when the token following a
factor is of type `NUMBER`, and the operator tail recurses into `term`. -/
def Parser.term : Nat → Token → List Token → Except SynErr (AST × Token × List Token)
  | 0, _, _ => .error .fuelExhausted
  | fuel + 1, cur, rest =>
    match Parser.factor fuel cur rest with
    | .error e => .error e
    | .ok (f, cur1, rest1) =>
      if cur1.type = .NUMBER then
        match Parser.term fuel cur1 rest1 with
        | .error e => .error e
        | .ok (rTerm, cur2, rest2) => .ok (.binary f .MULT rTerm, cur2, rest2)
      else if cur1.type = .MULT ∨ cur1.type = .DIVI ∨ cur1.type = .POW then
        match Parser.eat cur1.type cur1 rest1 with
        | .error e => .error e
        | .ok (cur2, rest2) =>
          match Parser.term fuel cur2 rest2 with
          | .error e => .error e
          | .ok (rTerm, cur3, rest3) => .ok (.binary f cur1.type rTerm, cur3, rest3)
      else .ok (f, cur1, rest1)

/-- `Parser.factor`: unary sign, prefix factorial, parenthesized closure,
identifier reference (`const`), or a numeric literal. -/
def Parser.factor : Nat → Token → List Token → Except SynErr (AST × Token × List Token)
  | 0, _, _ => .error .fuelExhausted
  | fuel + 1, cur, rest =>
    if cur.type = .PLUS ∨ cur.type = .MINUS then
      match Parser.eat cur.type cur rest with
      | .error e => .error e
      | .ok (cur1, rest1) =>
        match Parser.factor fuel cur1 rest1 with
        | .error e => .error e
        | .ok (f, cur2, rest2) => .ok (.unary cur.type f, cur2, rest2)
    else if cur.type = .FACTORIAL then
      match Parser.eat .FACTORIAL cur rest with
      | .error e => .error e
      | .ok (cur1, rest1) =>
        match Parser.factor fuel cur1 rest1 with
        | .error e => .error e
        | .ok (f, cur2, rest2) => .ok (.factorial f, cur2, rest2)
    else if cur.type = .LPAREN then Parser.closure fuel cur rest
    else if cur.type = .ID then
      match Parser.eat .ID cur rest with
      | .error e => .error e
      | .ok (cur1, rest1) => .ok (.ref cur, cur1, rest1)
    else
      match Parser.eat .NUMBER cur rest with
      | .error e => .error e
      | .ok (cur1, rest1) => .ok (.value cur.value, cur1, rest1)

/-- `Parser.closure`: `LPAREN expr RPAREN`. -/
def Parser.closure : Nat → Token → List Token → Except SynErr (AST × Token × List Token)
  | 0, _, _ => .error .fuelExhausted
  | fuel + 1, cur, rest =>
    match Parser.eat .LPAREN cur rest with
    | .error e => .error e
    | .ok (cur1, rest1) =>
      match Parser.expr fuel cur1 rest1 with
      | .error e => .error e
      | .ok (e, cur2, rest2) =>
        match Parser.eat .RPAREN cur2 rest2 with
        | .error e => .error e
        | .ok (cur3, rest3) => .ok (e, cur3, rest3)

end

/-- `Parser.declarations`: a loop of `ID ASSIGN expr` statements with an
optional `EOL`/`SEMICOLON` separator eaten after each, until `EOF`. -/
def Parser.declarations : Nat → Token → List Token → Except SynErr (List AST × Token × List Token)
  | 0, _, _ => .error .fuelExhausted
  | fuel + 1, cur, rest =>
    if cur.type = .EOF then .ok ([], cur, rest)
    else
      match Parser.eat .ID cur rest with
      | .error e => .error e
      | .ok (cur1, rest1) =>
        match Parser.eat .ASSIGN cur1 rest1 with
        | .error e => .error e
        | .ok (cur2, rest2) =>
          match Parser.expr fuel cur2 rest2 with
          | .error e => .error e
          | .ok (e, cur3, rest3) =>
            match
              (if cur3.type = .EOL ∨ cur3.type = .SEMICOLON then
                Parser.eat cur3.type cur3 rest3
              else .ok (cur3, rest3)) with
            | .error err => .error err
            | .ok (cur4, rest4) =>
              match Parser.declarations fuel cur4 rest4 with
              | .error err => .error err
              | .ok (stmts, cur5, rest5) => .ok (.assign cur e :: stmts, cur5, rest5)

/-- Parse a token stream into a `StatementListExpr` root.  The fuel
`5 * length + 10` dominates the parser's call depth, every level of which
either consumes a token or moves to a strictly smaller grammar layer. -/
def Parser.parseTokens (tokens : List Token) : Except SynErr AST :=
  match Parser.nextFromStream tokens with
  | (cur, rest) =>
    match Parser.declarations (5 * tokens.length + 10) cur rest with
    | .error e => .error e
    | .ok (stmts, _, _) => .ok (.stmtList stmts)

/-! ## Evaluator (`ASTCalculatorVisitor`) -/

/-- Evaluation failures.  `undefinedSymbol` is the thrown
`Undefined symbol '...'` error.  The other variants mark situations that the
JavaScript original continues through with poisoned values (`undefined` from
an empty `pop`, `NaN` from `Number(...)`, an irrational `Math.pow` result)
and that are unreachable on the programs and well-formed trees considered. -/
inductive EvalErr where
  | undefinedSymbol (name : String)
  | stackUnderflow
  | badOperator (t : TokenType)
  | nanValue
  | powNonInteger
deriving DecidableEq, Repr

/-- The number of digit characters, as a natural number. -/
def digitsVal (cs : List Char) : Nat :=
  cs.foldl (fun a c => a * 10 + (c.toNat - 48)) 0

/-- All characters are decimal digits. -/
def allDigits (cs : List Char) : Bool :=
  cs.all Char.isDigit

/-- JavaScript `Number(...)` restricted to the strings the lexer can store in
a `ValueExpr` (runs of digits and dots): at most one dot yields the decimal
value, `"5."` is `5`, `".5"` is `0.5`, a second dot (or a lone `"."`) yields
`NaN`, modelled as `none`. -/
def jsNumberOfChars (cs : List Char) : Option JSNumber :=
  let ip := cs.takeWhile (fun c => ¬(c = '.'))
  let rest := cs.dropWhile (fun c => ¬(c = '.'))
  if ¬(allDigits ip = true) then none
  else
    match rest with
    | [] => some ⟨(digitsVal ip : Int), 1⟩
    | _ :: frac =>
      if frac.contains '.' ∨ ¬(allDigits frac = true) then none
      else if ip.isEmpty ∧ frac.isEmpty then none
      else some ⟨(digitsVal ip : Int) * ((10 : Int) ^ frac.length) + (digitsVal frac : Int),
        (10 : Int) ^ frac.length⟩

/-- `Number(valueExpr.num)`: `Number(null)` is `0`; otherwise parse the
numeric text. -/
def jsNumber (num : Option String) : Option JSNumber :=
  match num with
  | none => some ⟨0, 1⟩
  | some s => jsNumberOfChars s.data

/-- The evaluator's state: the symbol table (`scope`, an association list
whose most recent binding wins, seeded with `pi` and `e`) and the
accumulator stack. -/
structure CalcState where
  scope : List (String × JSNumber)
  stack : List JSNumber
deriving DecidableEq, Repr

/-- The initial symbol table: `{ 'pi': Math.PI, 'e': Math.E }`. -/
def initScope : List (String × JSNumber) := [("pi", piVal), ("e", eVal)]

/-- `ASTCalculatorVisitor.resolve`: combine two operands by a binary
operator token. -/
def Calculator.resolve (type : TokenType) (left right : JSNumber) :
    Except EvalErr JSNumber :=
  match type with
  | .PLUS => .ok (left.add right)
  | .MINUS => .ok (left.sub right)
  | .DIVI => .ok (left.div right)
  | .MULT => .ok (left.mul right)
  | .POW =>
    if right.den ≠ 0 ∧ right.num % right.den = 0 then
      .ok (JSNumber.fixSign (let k := right.num / right.den
        if 0 ≤ k then ⟨left.num ^ k.toNat, left.den ^ k.toNat⟩
        else ⟨left.den ^ (-k).toNat, left.num ^ (-k).toNat⟩))
    else .error .powNonInteger
  | t => .error (.badOperator t)

/-- The `factorial` loop body: `for (var val = 1, i = 2; i <= num; i++)
val = val * i`, with fuel bounding the iteration count. -/
def Calculator.factorialAux : Nat → JSNumber → Nat → JSNumber → JSNumber
  | 0, val, _, _ => val
  | fuel + 1, val, i, num =>
    if (JSNumber.ofInt i).le num then
      Calculator.factorialAux fuel (val.mul (JSNumber.ofInt i)) (i + 1) num
    else val

/-- `ASTCalculatorVisitor.factorial`.  The loop runs at most
`max (⌊num⌋ - 1) 0` times, which `num.num.toNat` dominates whenever
`num.den > 0`, so the fuel is always sufficient for finite operands. -/
def Calculator.factorial (num : JSNumber) : JSNumber :=
  Calculator.factorialAux num.num.toNat ⟨1, 1⟩ 2 num

mutual

/-- The evaluating visitor: `node.accept(calculatorVisitor)`, dispatching on
the node variant exactly as the `visit*` methods do.  The dead
`if (this.stack.length === 0) this.output += result` blocks (unreachable,
since they follow a push) are omitted. -/
def Calculator.visit : AST → CalcState → Except EvalErr CalcState
  | .unary opToken e, s =>
    let signFactor : JSNumber := if opToken = .MINUS then ⟨-1, 1⟩ else ⟨1, 1⟩
    match Calculator.visit e s with
    | .error err => .error err
    | .ok s1 =>
      match s1.stack with
      | v :: tail => .ok ⟨s1.scope, (signFactor.mul v) :: tail⟩
      | [] => .error .stackUnderflow
  | .value num, s =>
    match jsNumber num with
    | some q => .ok ⟨s.scope, q :: s.stack⟩
    | none => .error .nanValue
  | .ref constToken, s =>
    match s.scope.lookup (constToken.value.getD "null") with
    | some result => .ok ⟨s.scope, result :: s.stack⟩
    | none => .error (.undefinedSymbol (constToken.value.getD "null"))
  | .factorial factor, s =>
    match Calculator.visit factor s with
    | .error err => .error err
    | .ok s1 =>
      match s1.stack with
      | v :: tail => .ok ⟨s1.scope, (Calculator.factorial v) :: tail⟩
      | [] => .error .stackUnderflow
  | .binary left token right, s =>
    match Calculator.visit left s with
    | .error err => .error err
    | .ok s1 =>
      match s1.stack with
      | l :: tail1 =>
        match Calculator.visit right ⟨s1.scope, tail1⟩ with
        | .error err => .error err
        | .ok s2 =>
          match s2.stack with
          | r :: tail2 =>
            match Calculator.resolve token l r with
            | .error err => .error err
            | .ok result => .ok ⟨s2.scope, result :: tail2⟩
          | [] => .error .stackUnderflow
      | [] => .error .stackUnderflow
  | .assign id e, s =>
    match Calculator.visit e s with
    | .error err => .error err
    | .ok s1 =>
      match s1.stack with
      | v :: tail => .ok ⟨(id.value.getD "null", v) :: s1.scope, tail⟩
      | [] => .error .stackUnderflow
  | .stmtList statements, s => Calculator.visitList statements s

/-- `visitStatementListExpr`: evaluate the statements in order. -/
def Calculator.visitList : List AST → CalcState → Except EvalErr CalcState
  | [], s => .ok s
  | e :: es, s =>
    match Calculator.visit e s with
    | .error err => .error err
    | .ok s1 => Calculator.visitList es s1

end

/-- `ASTCalculatorVisitor.getOutput`: `this.scope['out']`, `undefined`
(`none`) when no statement assigned `out`. -/
def Calculator.getOutput (s : CalcState) : Option JSNumber :=
  s.scope.lookup "out"

/-! ## Printer (`ASTPrinterVisitor`) -/

/-- Printing failures; both are unreachable on well-formed trees: the
JavaScript original would render `"undefined"` from an empty `pop` and throws
on a non-operator token in `resolve`. -/
inductive PrintErr where
  | stackUnderflow
  | badOperator (t : TokenType)
deriving DecidableEq, Repr

/-- The printer's `constTable`: markup for the two built-in constants. -/
def Printer.constTable (name : String) : Option String :=
  if name = "pi" then some "&pi;"
  else if name = "e" then some "<i>e</i>"
  else none

/-- `ASTPrinterVisitor.resolve`: operator markup. -/
def Printer.resolve (type : TokenType) (left right : String) :
    Except PrintErr String :=
  match type with
  | .PLUS => .ok (left ++ " &plus; " ++ right)
  | .MINUS => .ok (left ++ " &minus; " ++ right)
  | .DIVI => .ok ("<sup>" ++ left ++ "</sup>&frasl;<sub>" ++ right ++ "</sub>")
  | .MULT => .ok (left ++ " &times; " ++ right)
  | .POW => .ok (left ++ "<sup>" ++ right ++ "</sup>")
  | t => .error (.badOperator t)

/-- The left-operand bareness test of `visitBinaryExpr`: a literal, a
factorial, a reference, or a binary child whose operator is `DIVI`, the
parent's operator, or `POW`. -/
def Printer.leftBare (parent : TokenType) (l : AST) : Bool :=
  l.isValueExpr || l.isFactorialExpr
    || (l.isBinaryExpr &&
        (l.tokenProp = some TokenType.DIVI || l.tokenProp = some parent
          || l.tokenProp = some TokenType.POW))
    || l.isRefExpr

/-- The right-operand bareness test of `visitBinaryExpr`.  Mirrors the
JavaScript condition exactly: because `&&` binds tighter than `||` there, the
clause `right.token === TokenType.POW` stands on its own, outside the
`instanceof BinaryExpr` guard; the property access `right.token` is
`undefined` on non-binary nodes, so that clause fires exactly for binary
right operands whose operator is `POW`, for any parent operator. -/
def Printer.rightBare (parent : TokenType) (r : AST) : Bool :=
  r.isValueExpr || r.isFactorialExpr
    || parent = TokenType.POW
    || ((r.isBinaryExpr &&
          (r.tokenProp = some TokenType.DIVI || r.tokenProp = some parent))
        || r.tokenProp = some TokenType.POW)
    || r.isRefExpr

mutual

/-- The printing visitor: `node.accept(printerVisitor)` over a stack of
rendered strings.  The dead `if (this.stack.length === 0)` blocks are
omitted as in the evaluator. -/
def Printer.visit : AST → List String → Except PrintErr (List String)
  | .unary opToken e, st =>
    let signFactor := if opToken = .MINUS then "&minus;" else ""
    match Printer.visit e st with
    | .error err => .error err
    | .ok st1 =>
      match st1 with
      | top :: tail =>
        if e.isValueExpr || e.isFactorialExpr then
          .ok ((signFactor ++ top) :: tail)
        else .ok ((signFactor ++ "(" ++ top ++ ")") :: tail)
      | [] => .error .stackUnderflow
  | .value num, st => .ok ((num.getD "null") :: st)
  | .ref constToken, st =>
    let name := constToken.value.getD "null"
    .ok (((Printer.constTable name).getD name) :: st)
  | .factorial factor, st =>
    match Printer.visit factor st with
    | .error err => .error err
    | .ok st1 =>
      match st1 with
      | top :: tail =>
        if factor.isValueExpr || factor.isFactorialExpr || factor.isRefExpr then
          .ok (("!" ++ top) :: tail)
        else .ok (("!(" ++ top ++ ")") :: tail)
      | [] => .error .stackUnderflow
  | .binary l token r, st =>
    match Printer.visit l st with
    | .error err => .error err
    | .ok st1 =>
      match st1 with
      | ltop :: tail1 =>
        let leftStr := if Printer.leftBare token l then ltop else "(" ++ ltop ++ ")"
        match Printer.visit r tail1 with
        | .error err => .error err
        | .ok st2 =>
          match st2 with
          | rtop :: tail2 =>
            let rightStr := if Printer.rightBare token r then rtop else "(" ++ rtop ++ ")"
            match Printer.resolve token leftStr rightStr with
            | .error err => .error err
            | .ok result => .ok (result :: tail2)
          | [] => .error .stackUnderflow
      | [] => .error .stackUnderflow
  | .assign id e, st =>
    match Printer.visit e st with
    | .error err => .error err
    | .ok st1 =>
      match st1 with
      | top :: tail => .ok (((id.value.getD "null") ++ " = " ++ top) :: tail)
      | [] => .error .stackUnderflow
  | .stmtList statements, st => Printer.visitList statements st

/-- `visitStatementListExpr` of the printer: render each statement and
append `<br>` to its rendering. -/
def Printer.visitList : List AST → List String → Except PrintErr (List String)
  | [], st => .ok st
  | e :: es, st =>
    match Printer.visit e st with
    | .error err => .error err
    | .ok st1 =>
      match st1 with
      | top :: tail => Printer.visitList es ((top ++ "<br>") :: tail)
      | [] => .error .stackUnderflow

end

/-! ## Whole pipeline -/

/-- Failures of the whole pipeline. -/
inductive RunErr where
  | lex (e : LexErr)
  | syn (e : SynErr)
  | eval (e : EvalErr)
deriving DecidableEq, Repr

/-- `new Parser(input).parse()`: tokenize, then parse. -/
def parse (input : String) : Except RunErr AST :=
  match Lexer.tokenize input with
  | .error e => .error (.lex e)
  | .ok tokens =>
    match Parser.parseTokens tokens with
    | .error e => .error (.syn e)
    | .ok ast => .ok ast

/-- `interpret(input, new ASTCalculatorVisitor())`: parse, then run the
evaluating visitor on the root from a fresh state. -/
def interpret (input : String) : Except RunErr CalcState :=
  match parse input with
  | .error e => .error e
  | .ok ast =>
    match Calculator.visit ast ⟨initScope, []⟩ with
    | .error e => .error (.eval e)
    | .ok s => .ok s

/-- The final result of a run: `getOutput()` after interpreting. -/
def getOut (input : String) : Except RunErr (Option JSNumber) :=
  match interpret input with
  | .error e => .error e
  | .ok s => .ok (Calculator.getOutput s)


/-- Modelled from the claim sentence of C6 (the spec's right-operand rule):
bare iff the right operand is a literal, a factorial, a reference, the parent
operator is `POW`, or a binary child whose operator is `DIVI` or equal to the
parent's.  To be compared with `Printer.rightBare`, the condition translated
from the source. -/
def Printer.rightBareClaim (parent : TokenType) (r : AST) : Bool :=
  r.isValueExpr || r.isFactorialExpr || r.isRefExpr || parent = TokenType.POW
    || (r.isBinaryExpr &&
        (r.tokenProp = some TokenType.DIVI || r.tokenProp = some parent))

/-- Modelled from the claim sentence of C7: a unary or factorial node leaves
its operand bare iff the operand is a literal, a reference, or a factorial.
To be compared with the conditions of `Printer.visit` on unary and factorial
nodes. -/
def Printer.unaryFactorialBareClaim (e : AST) : Bool :=
  e.isValueExpr || e.isRefExpr || e.isFactorialExpr


/-! ## Lemmas about the numeric model -/

/-- Sign normalization does not change the represented rational. -/
theorem JSNumber.toRat_fixSign (q : JSNumber) : q.fixSign.toRat = q.toRat := by
  rw [JSNumber.fixSign]
  split
  · rw [JSNumber.toRat, JSNumber.toRat]
    push_cast
    rw [neg_div_neg_eq]
  · rfl

/-- Multiplication of `JSNumber`s is multiplication of their values. -/
theorem JSNumber.toRat_mul (x y : JSNumber) : (x.mul y).toRat = x.toRat * y.toRat := by
  rw [JSNumber.mul, JSNumber.toRat_fixSign, JSNumber.toRat, JSNumber.toRat, JSNumber.toRat]
  push_cast
  rw [div_mul_div_comm]

/-- The cross-multiplication comparison agrees with the rational order when
both denominators are positive. -/
theorem JSNumber.le_iff_toRat (x y : JSNumber) (hx : 0 < x.den) (hy : 0 < y.den) :
    x.le y = true ↔ x.toRat ≤ y.toRat := by
  rw [JSNumber.le, JSNumber.toRat, JSNumber.toRat, decide_eq_true_eq,
    div_le_div_iff₀ (by exact_mod_cast hx) (by exact_mod_cast hy)]
  exact_mod_cast Iff.rfl

/-! ## Structural lemmas -/

/-- Evaluating any expression node that succeeds leaves the scope unchanged
and pushes exactly one value onto the accumulator stack. -/
theorem visit_expr_stack (e : AST) (he : e.isExprNode = true) :
    ∀ s s1, Calculator.visit e s = .ok s1 →
      s1.scope = s.scope ∧ ∃ v, s1.stack = v :: s.stack := by
  match e with
  | .value num =>
    intro s s1 h
    simp only [Calculator.visit] at h
    cases h1 : jsNumber num with
    | none => rw [h1] at h; simp at h
    | some q =>
      rw [h1] at h
      simp only [] at h
      cases h
      exact ⟨rfl, q, rfl⟩
  | .ref tok =>
    intro s s1 h
    simp only [Calculator.visit] at h
    cases h1 : s.scope.lookup (tok.value.getD "null") with
    | none => rw [h1] at h; simp at h
    | some v =>
      rw [h1] at h
      simp only [] at h
      cases h
      exact ⟨rfl, v, rfl⟩
  | .unary op e1 =>
    intro s s1 h
    simp only [AST.isExprNode] at he
    simp only [Calculator.visit] at h
    cases h1 : Calculator.visit e1 s with
    | error err => rw [h1] at h; simp at h
    | ok s2 =>
      rw [h1] at h
      simp only [] at h
      obtain ⟨hsc, v, hst⟩ := visit_expr_stack e1 he s s2 h1
      rw [hst] at h
      simp only [] at h
      cases h
      exact ⟨hsc, _, rfl⟩
  | .factorial e1 =>
    intro s s1 h
    simp only [AST.isExprNode] at he
    simp only [Calculator.visit] at h
    cases h1 : Calculator.visit e1 s with
    | error err => rw [h1] at h; simp at h
    | ok s2 =>
      rw [h1] at h
      simp only [] at h
      obtain ⟨hsc, v, hst⟩ := visit_expr_stack e1 he s s2 h1
      rw [hst] at h
      simp only [] at h
      cases h
      exact ⟨hsc, _, rfl⟩
  | .binary l tok r =>
    intro s s1 h
    simp only [AST.isExprNode, Bool.and_eq_true] at he
    simp only [Calculator.visit] at h
    cases h1 : Calculator.visit l s with
    | error err => rw [h1] at h; simp at h
    | ok s2 =>
      rw [h1] at h
      simp only [] at h
      obtain ⟨hsc2, v2, hst2⟩ := visit_expr_stack l he.1 s s2 h1
      rw [hst2] at h
      simp only [] at h
      cases h3 : Calculator.visit r ⟨s2.scope, s.stack⟩ with
      | error err => rw [h3] at h; simp at h
      | ok s3 =>
        rw [h3] at h
        simp only [] at h
        obtain ⟨hsc3, v3, hst3⟩ := visit_expr_stack r he.2 _ s3 h3
        rw [hst3] at h
        simp only [] at h
        cases h4 : Calculator.resolve tok v2 v3 with
        | error err => rw [h4] at h; simp at h
        | ok res =>
          rw [h4] at h
          simp only [] at h
          cases h
          exact ⟨by rw [hsc3, hsc2], res, by simp⟩

/-- Evaluating a well-formed assignment statement leaves the stack height
unchanged: it pops exactly the value its right-hand side pushed. -/
theorem visit_statement_stack (a : AST) (ha : a.isWfStatement = true) :
    ∀ s s1, Calculator.visit a s = .ok s1 → s1.stack = s.stack := by
  cases a with
  | assign id e =>
    intro s s1 h
    simp only [AST.isWfStatement] at ha
    simp only [Calculator.visit] at h
    cases h1 : Calculator.visit e s with
    | error err => rw [h1] at h; simp at h
    | ok s2 =>
      rw [h1] at h
      simp only [] at h
      obtain ⟨hsc, v, hst⟩ := visit_expr_stack e ha s s2 h1
      rw [hst] at h
      simp only [] at h
      cases h
      rfl
  | unary op e => intro s s1 h; simp [AST.isWfStatement] at ha
  | value num => intro s s1 h; simp [AST.isWfStatement] at ha
  | ref tok => intro s s1 h; simp [AST.isWfStatement] at ha
  | factorial e => intro s s1 h; simp [AST.isWfStatement] at ha
  | binary l t r => intro s s1 h; simp [AST.isWfStatement] at ha
  | stmtList sts => intro s s1 h; simp [AST.isWfStatement] at ha

/-- Evaluating a list of well-formed statements preserves the stack. -/
theorem visitList_stack (stmts : List AST) (hw : stmts.all AST.isWfStatement = true) :
    ∀ s s1, Calculator.visitList stmts s = .ok s1 → s1.stack = s.stack := by
  induction stmts with
  | nil =>
    intro s s1 h
    simp only [Calculator.visitList] at h
    cases h
    rfl
  | cons a rest ih =>
    intro s s1 h
    simp only [List.all_cons, Bool.and_eq_true] at hw
    simp only [Calculator.visitList] at h
    cases h1 : Calculator.visit a s with
    | error err => rw [h1] at h; simp at h
    | ok s2 =>
      rw [h1] at h
      simp only [] at h
      rw [ih hw.2 s2 s1 h, visit_statement_stack a hw.1 s s2 h1]

/-- Every tree returned by the expression layer of the parser is an
expression node (never an assignment or a statement list). -/
theorem parser_wf : ∀ fuel : Nat,
    (∀ cur rest e c2 r2, Parser.expr fuel cur rest = .ok (e, c2, r2) → e.isExprNode = true) ∧
    (∀ cur rest e c2 r2, Parser.term fuel cur rest = .ok (e, c2, r2) → e.isExprNode = true) ∧
    (∀ cur rest e c2 r2, Parser.factor fuel cur rest = .ok (e, c2, r2) → e.isExprNode = true) ∧
    (∀ cur rest e c2 r2, Parser.closure fuel cur rest = .ok (e, c2, r2) → e.isExprNode = true) := by
  intro fuel
  induction fuel with
  | zero =>
    refine ⟨?_, ?_, ?_, ?_⟩ <;> intro cur rest e c2 r2 h <;>
      simp [Parser.expr, Parser.term, Parser.factor, Parser.closure] at h
  | succ n ih =>
    obtain ⟨ihe, iht, ihf, ihc⟩ := ih
    refine ⟨?_, ?_, ?_, ?_⟩
    · intro cur rest e c2 r2 h
      simp only [Parser.expr] at h
      cases h1 : Parser.term n cur rest with
      | error err => rw [h1] at h; simp at h
      | ok trip =>
        obtain ⟨t, cur1, rest1⟩ := trip
        rw [h1] at h
        simp only [] at h
        split at h
        · simp only [Parser.eat, if_pos rfl, if_true] at h
          rcases h2 : Parser.nextFromStream rest1 with ⟨cur2, rest2⟩
          rw [h2] at h
          cases h3 : Parser.expr n cur2 rest2 with
          | error err => rw [h3] at h; simp at h
          | ok trip2 =>
            obtain ⟨rTerm, cur3, rest3⟩ := trip2
            rw [h3] at h
            simp only [] at h
            cases h
            simp only [AST.isExprNode, Bool.and_eq_true]
            exact ⟨iht _ _ _ _ _ h1, ihe _ _ _ _ _ h3⟩
        · cases h
          exact iht _ _ _ _ _ h1
    · intro cur rest e c2 r2 h
      simp only [Parser.term] at h
      cases h1 : Parser.factor n cur rest with
      | error err => rw [h1] at h; simp at h
      | ok trip =>
        obtain ⟨f, cur1, rest1⟩ := trip
        rw [h1] at h
        simp only [] at h
        split at h
        · cases h3 : Parser.term n cur1 rest1 with
          | error err => rw [h3] at h; simp at h
          | ok trip2 =>
            obtain ⟨rTerm, cur3, rest3⟩ := trip2
            rw [h3] at h
            simp only [] at h
            cases h
            simp only [AST.isExprNode, Bool.and_eq_true]
            exact ⟨ihf _ _ _ _ _ h1, iht _ _ _ _ _ h3⟩
        · split at h
          · simp only [Parser.eat, if_pos rfl, if_true] at h
            rcases h2 : Parser.nextFromStream rest1 with ⟨cur2, rest2⟩
            rw [h2] at h
            cases h3 : Parser.term n cur2 rest2 with
            | error err => rw [h3] at h; simp at h
            | ok trip2 =>
              obtain ⟨rTerm, cur3, rest3⟩ := trip2
              rw [h3] at h
              simp only [] at h
              cases h
              simp only [AST.isExprNode, Bool.and_eq_true]
              exact ⟨ihf _ _ _ _ _ h1, iht _ _ _ _ _ h3⟩
          · cases h
            exact ihf _ _ _ _ _ h1
    · intro cur rest e c2 r2 h
      simp only [Parser.factor] at h
      split at h
      · simp only [Parser.eat, if_pos rfl, if_true] at h
        rcases h2 : Parser.nextFromStream rest with ⟨cur1, rest1⟩
        rw [h2] at h
        cases h3 : Parser.factor n cur1 rest1 with
        | error err => rw [h3] at h; simp at h
        | ok trip2 =>
          obtain ⟨f, cur2, rest2⟩ := trip2
          rw [h3] at h
          simp only [] at h
          cases h
          simp only [AST.isExprNode]
          exact ihf _ _ _ _ _ h3
      · split at h
        · cases h1 : Parser.eat .FACTORIAL cur rest with
          | error err => rw [h1] at h; simp at h
          | ok pr =>
            obtain ⟨cur1, rest1⟩ := pr
            rw [h1] at h
            simp only [] at h
            cases h3 : Parser.factor n cur1 rest1 with
            | error err => rw [h3] at h; simp at h
            | ok trip2 =>
              obtain ⟨f, cur2, rest2⟩ := trip2
              rw [h3] at h
              simp only [] at h
              cases h
              simp only [AST.isExprNode]
              exact ihf _ _ _ _ _ h3
        · split at h
          · exact ihc _ _ _ _ _ h
          · split at h
            · cases h1 : Parser.eat .ID cur rest with
              | error err => rw [h1] at h; simp at h
              | ok pr =>
                obtain ⟨cur1, rest1⟩ := pr
                rw [h1] at h
                simp only [] at h
                cases h
                simp [AST.isExprNode]
            · cases h1 : Parser.eat .NUMBER cur rest with
              | error err => rw [h1] at h; simp at h
              | ok pr =>
                obtain ⟨cur1, rest1⟩ := pr
                rw [h1] at h
                simp only [] at h
                cases h
                simp [AST.isExprNode]
    · intro cur rest e c2 r2 h
      simp only [Parser.closure] at h
      cases h1 : Parser.eat .LPAREN cur rest with
      | error err => rw [h1] at h; simp at h
      | ok pr =>
        obtain ⟨cur1, rest1⟩ := pr
        rw [h1] at h
        simp only [] at h
        cases h3 : Parser.expr n cur1 rest1 with
        | error err => rw [h3] at h; simp at h
        | ok trip2 =>
          obtain ⟨f, cur2, rest2⟩ := trip2
          rw [h3] at h
          simp only [] at h
          cases h4 : Parser.eat .RPAREN cur2 rest2 with
          | error err => rw [h4] at h; simp at h
          | ok pr2 =>
            obtain ⟨cur3, rest3⟩ := pr2
            rw [h4] at h
            simp only [] at h
            cases h
            exact ihe _ _ _ _ _ h3

/-- Every statement produced by `declarations` is an assignment whose
right-hand side is an expression node. -/
theorem declarations_wf : ∀ fuel cur rest stmts c2 r2,
    Parser.declarations fuel cur rest = .ok (stmts, c2, r2) →
      stmts.all AST.isWfStatement = true := by
  intro fuel
  induction fuel with
  | zero => intro cur rest stmts c2 r2 h; simp [Parser.declarations] at h
  | succ n ih =>
    intro cur rest stmts c2 r2 h
    simp only [Parser.declarations] at h
    split at h
    · cases h
      simp
    · cases h1 : Parser.eat .ID cur rest with
      | error err => rw [h1] at h; simp at h
      | ok pr =>
        obtain ⟨cur1, rest1⟩ := pr
        rw [h1] at h
        simp only [] at h
        cases h2 : Parser.eat .ASSIGN cur1 rest1 with
        | error err => rw [h2] at h; simp at h
        | ok pr2 =>
          obtain ⟨cur2, rest2⟩ := pr2
          rw [h2] at h
          simp only [] at h
          cases h3 : Parser.expr n cur2 rest2 with
          | error err => rw [h3] at h; simp at h
          | ok trip =>
            obtain ⟨e, cur3, rest3⟩ := trip
            rw [h3] at h
            simp only [] at h
            cases h4 : (if cur3.type = TokenType.EOL ∨ cur3.type = TokenType.SEMICOLON then
                Parser.eat cur3.type cur3 rest3
              else .ok (cur3, rest3)) with
            | error err => rw [h4] at h; simp at h
            | ok pr4 =>
              obtain ⟨cur4, rest4⟩ := pr4
              rw [h4] at h
              simp only [] at h
              cases h5 : Parser.declarations n cur4 rest4 with
              | error err => rw [h5] at h; simp at h
              | ok trip5 =>
                obtain ⟨stmts5, cur5, rest5⟩ := trip5
                rw [h5] at h
                simp only [] at h
                cases h
                simp only [List.all_cons, Bool.and_eq_true]
                exact ⟨(parser_wf n).1 _ _ _ _ _ h3, ih _ _ _ _ _ h5⟩

/-- Every successfully parsed program is a well-formed statement list. -/
theorem parse_wf (input : String) (p : AST) (h : parse input = .ok p) :
    p.isWfProgram = true := by
  simp only [parse] at h
  cases h1 : Lexer.tokenize input with
  | error err => rw [h1] at h; simp at h
  | ok tokens =>
    rw [h1] at h
    simp only [] at h
    cases h2 : Parser.parseTokens tokens with
    | error err => rw [h2] at h; simp at h
    | ok ast =>
      rw [h2] at h
      simp only [] at h
      cases h
      simp only [Parser.parseTokens] at h2
      rcases h3 : Parser.nextFromStream tokens with ⟨cur, rest⟩
      rw [h3] at h2
      cases h4 : Parser.declarations (5 * tokens.length + 10) cur rest with
      | error err => rw [h4] at h2; simp at h2
      | ok trip =>
        obtain ⟨stmts, c5, r5⟩ := trip
        rw [h4] at h2
        simp only [] at h2
        cases h2
        simp only [AST.isWfProgram]
        exact declarations_wf _ _ _ _ _ _ h4

/-- The printer is local on expression nodes: visiting one either pushes a
single rendered string that does not depend on the incoming stack, or fails
with a stack-independent error. -/
theorem printer_frame (e : AST) (he : e.isExprNode = true) :
    (∃ out, ∀ st, Printer.visit e st = .ok (out :: st)) ∨
      (∃ err, ∀ st, Printer.visit e st = .error err) := by
  match e with
  | .value num => exact Or.inl ⟨num.getD "null", fun st => rfl⟩
  | .ref tok =>
    exact Or.inl ⟨(Printer.constTable (tok.value.getD "null")).getD (tok.value.getD "null"),
      fun st => rfl⟩
  | .unary op e1 =>
    simp only [AST.isExprNode] at he
    rcases printer_frame e1 he with ⟨out, hf⟩ | ⟨err, hf⟩
    · left
      refine ⟨if e1.isValueExpr || e1.isFactorialExpr
          then (if op = TokenType.MINUS then "&minus;" else "") ++ out
          else (if op = TokenType.MINUS then "&minus;" else "") ++ "(" ++ out ++ ")",
        fun st => ?_⟩
      simp only [Printer.visit]
      rw [hf st]
      simp only []
      split <;> simp [*]
    · right
      exact ⟨err, fun st => by simp only [Printer.visit]; rw [hf st]⟩
  | .factorial e1 =>
    simp only [AST.isExprNode] at he
    rcases printer_frame e1 he with ⟨out, hf⟩ | ⟨err, hf⟩
    · left
      refine ⟨if e1.isValueExpr || e1.isFactorialExpr || e1.isRefExpr
          then "!" ++ out else "!(" ++ out ++ ")", fun st => ?_⟩
      simp only [Printer.visit]
      rw [hf st]
      simp only []
      split <;> simp [*]
    · right
      exact ⟨err, fun st => by simp only [Printer.visit]; rw [hf st]⟩
  | .binary l tok r =>
    simp only [AST.isExprNode, Bool.and_eq_true] at he
    rcases printer_frame l he.1 with ⟨outl, hfl⟩ | ⟨err, hfl⟩
    · rcases printer_frame r he.2 with ⟨outr, hfr⟩ | ⟨err, hfr⟩
      · cases h4 : Printer.resolve tok
            (if Printer.leftBare tok l then outl else "(" ++ outl ++ ")")
            (if Printer.rightBare tok r then outr else "(" ++ outr ++ ")") with
        | error err =>
          right
          refine ⟨err, fun st => ?_⟩
          simp only [Printer.visit]
          rw [hfl st]
          simp only []
          rw [hfr st]
          simp only []
          rw [h4]
        | ok res =>
          left
          refine ⟨res, fun st => ?_⟩
          simp only [Printer.visit]
          rw [hfl st]
          simp only []
          rw [hfr st]
          simp only []
          rw [h4]
      · right
        refine ⟨err, fun st => ?_⟩
        simp only [Printer.visit]
        rw [hfl st]
        simp only []
        rw [hfr st]
    · right
      exact ⟨err, fun st => by simp only [Printer.visit]; rw [hfl st]⟩

/-- Shifting the lower endpoint of an integer interval. -/
theorem Icc_int_succ_left (a b : Int) : Finset.Icc (a + 1) b = Finset.Ioc a b := by
  ext x
  simp only [Finset.mem_Icc, Finset.mem_Ioc]
  omega

/-- The factorial loop with sufficient fuel computes, in rational value, the
running product times the product of the integers from the counter up to the
floor of the operand. -/
theorem factorialAux_toRat (fuel : Nat) : ∀ (val : JSNumber) (i : Nat) (q : JSNumber),
    0 < q.den → ⌊q.toRat⌋ + 1 ≤ (i : Int) + (fuel : Int) →
    (Calculator.factorialAux fuel val i q).toRat =
      val.toRat * ∏ j ∈ Finset.Icc (i : Int) ⌊q.toRat⌋, (j : ℚ) := by
  induction fuel with
  | zero =>
    intro val i q hden hfuel
    simp only [Calculator.factorialAux]
    rw [Finset.Icc_eq_empty (by intro hle; omega), Finset.prod_empty, mul_one]
  | succ n ih =>
    intro val i q hden hfuel
    simp only [Calculator.factorialAux]
    split
    · next hcond =>
      have hle : ((i : Int) : ℚ) ≤ q.toRat := by
        have h2 := (JSNumber.le_iff_toRat (JSNumber.ofInt i) q (by norm_num [JSNumber.ofInt]) hden).mp hcond
        simpa [JSNumber.ofInt, JSNumber.toRat] using h2
      have hif : (i : Int) ≤ ⌊q.toRat⌋ := Int.le_floor.mpr hle
      rw [ih _ _ _ hden (by push_cast; push_cast at hfuel; omega)]
      rw [JSNumber.toRat_mul]
      have hofi : (JSNumber.ofInt i).toRat = ((i : Int) : ℚ) := by
        simp [JSNumber.ofInt, JSNumber.toRat]
      rw [hofi]
      have hsplit : ∏ j ∈ Finset.Icc (i : Int) ⌊q.toRat⌋, (j : ℚ) =
          ((i : Int) : ℚ) * ∏ j ∈ Finset.Icc ((i : Int) + 1) ⌊q.toRat⌋, (j : ℚ) := by
        rw [Icc_int_succ_left, Finset.mul_prod_Ioc_eq_prod_Icc hif]
      push_cast
      push_cast at hsplit
      rw [hsplit]
      ring
    · next hcond =>
      have hlt : q.toRat < ((i : Int) : ℚ) := by
        by_contra hc
        exact hcond ((JSNumber.le_iff_toRat (JSNumber.ofInt i) q
          (by norm_num [JSNumber.ofInt]) hden).mpr (by
            simpa [JSNumber.ofInt, JSNumber.toRat] using not_lt.mp hc))
      have hif : ⌊q.toRat⌋ < (i : Int) := Int.floor_lt.mpr hlt
      rw [Finset.Icc_eq_empty (by intro hle; omega), Finset.prod_empty, mul_one]

/-- The value computed by the factorial method is the product of
the integers from `2` up to the floor of the operand (the empty product `1`
when the floor is below `2`). -/
theorem factorial_toRat (q : JSNumber) (hden : 0 < q.den) :
    (Calculator.factorial q).toRat = ∏ j ∈ Finset.Icc (2 : Int) ⌊q.toRat⌋, (j : ℚ) := by
  rw [Calculator.factorial]
  rw [factorialAux_toRat q.num.toNat ⟨1, 1⟩ 2 q hden ?suff]
  · simp [JSNumber.toRat]
  case suff =>
    have h1 : ⌊q.toRat⌋ ≤ q.num.toNat := by
      rcases le_or_lt 0 q.num with hn | hn
      · have hle2 : q.toRat ≤ (q.num : ℚ) := by
          rw [JSNumber.toRat]
          apply div_le_self (by exact_mod_cast hn)
          exact_mod_cast hden
        have h2 := Int.floor_le_floor hle2
        rw [Int.floor_intCast] at h2
        omega
      · have hneg : q.toRat < 0 := by
          rw [JSNumber.toRat]
          apply div_neg_of_neg_of_pos
          · exact_mod_cast hn
          · exact_mod_cast hden
        have h2 : ⌊q.toRat⌋ < 0 := by
          rw [Int.floor_lt]
          push_cast
          exact hneg
        omega
    omega

/-- Horizontal whitespace characters are JavaScript whitespace characters. -/
theorem isHorizontalWS_isWhiteSpace (c : Char) (h : Lexer.isHorizontalWS c = true) :
    Lexer.isWhiteSpace c = true := by
  simp only [Lexer.isHorizontalWS, decide_eq_true_eq] at h
  simp only [Lexer.isWhiteSpace, decide_eq_true_eq]
  tauto

/-- Dropping a prefix never lengthens a list. -/
theorem dropWhile_length_le {α : Type} (p : α → Bool) :
    ∀ l : List α, (l.dropWhile p).length ≤ l.length := by
  intro l
  induction l with
  | nil => simp
  | cons a t ih =>
    rw [List.dropWhile_cons]
    split
    · exact le_trans ih (by simp)
    · simp

/-- The scanner is fuel-irrelevant once the fuel exceeds the input length. -/
theorem nextTokenF_congr : ∀ (f g : Nat) (cs : List Char), cs.length < f → cs.length < g →
    Lexer.nextTokenF f cs = Lexer.nextTokenF g cs := by
  intro f
  induction f with
  | zero => intro g cs hf hg; omega
  | succ n ih =>
    intro g cs hf hg
    cases cs with
    | nil => cases g with | zero => omega | succ g0 => rfl
    | cons c cs0 =>
      cases g with
      | zero => omega
      | succ g0 =>
        simp only [Lexer.nextTokenF]
        by_cases hc : Lexer.isHorizontalWS c = true
        · rw [if_pos hc, if_pos hc]
          rw [List.dropWhile_cons, if_pos (isHorizontalWS_isWhiteSpace c hc)]
          have hlen := dropWhile_length_le Lexer.isWhiteSpace cs0
          apply ih
          · simp only [List.length_cons] at hf
            omega
          · simp only [List.length_cons] at hg
            omega
        · rw [if_neg hc, if_neg hc]

/-! ## The claims -/

/-- Claim C1: all binary operators parse right-associatively.  For every
operator `op` of `PLUS`, `MINUS`, `MULT`, `DIVI`, `POW` and any numeric
operand tokens, the chain `a op b op c` parses as `a op (b op c)`;
consequently `out = 10 - 2 - 3` evaluates to `11` and `out = 100 / 2 / 5`
evaluates to `250`. -/
theorem euron_C1 (fuel : Nat) (va vb vc v1 v2 : Option String) (op : TokenType)
    (h : op = TokenType.PLUS ∨ op = TokenType.MINUS ∨ op = TokenType.MULT ∨
      op = TokenType.DIVI ∨ op = TokenType.POW) :
    Parser.expr (fuel + 9) ⟨.NUMBER, va⟩
        [⟨op, v1⟩, ⟨.NUMBER, vb⟩, ⟨op, v2⟩, ⟨.NUMBER, vc⟩] =
      .ok (.binary (.value va) op (.binary (.value vb) op (.value vc)), ⟨.EOF, none⟩, []) ∧
    (getOut "out = 10 - 2 - 3").map (Option.map JSNumber.toRat) = .ok (some 11) ∧
    (getOut "out = 100 / 2 / 5").map (Option.map JSNumber.toRat) = .ok (some 250) := by
  refine ⟨?_, ?_, ?_⟩
  · rcases h with rfl | rfl | rfl | rfl | rfl <;> rfl
  · have hrun : getOut "out = 10 - 2 - 3" = .ok (some ⟨11, 1⟩) := by decide
    rw [hrun]
    norm_num [Except.map, JSNumber.toRat]
  · have hrun : getOut "out = 100 / 2 / 5" = .ok (some ⟨500, 2⟩) := by decide
    rw [hrun]
    norm_num [Except.map, JSNumber.toRat]

/-- Witness for C1: the chain theorem at `op = MINUS` with concrete
operands, together with the two concrete program evaluations. -/
theorem euron_C1_witness :
    Parser.expr 9 ⟨.NUMBER, some "10"⟩
        [⟨.MINUS, some "-"⟩, ⟨.NUMBER, some "2"⟩, ⟨.MINUS, some "-"⟩, ⟨.NUMBER, some "3"⟩] =
      .ok (.binary (.value (some "10")) .MINUS
        (.binary (.value (some "2")) .MINUS (.value (some "3"))), ⟨.EOF, none⟩, []) ∧
    (getOut "out = 10 - 2 - 3").map (Option.map JSNumber.toRat) = .ok (some 11) ∧
    (getOut "out = 100 / 2 / 5").map (Option.map JSNumber.toRat) = .ok (some 250) :=
  euron_C1 0 (some "10") (some "2") (some "3") (some "-") (some "-") TokenType.MINUS
    (Or.inr (Or.inl rfl))

/-- Counterexample to C2 as stated: the claim's example programs use postfix
factorial syntax (`3.5!`, `(-2)!`), but the grammar's factorial is prefix
(`factor : FACTORIAL factor`), so both programs are syntax errors and do
not bind `out` to anything. -/
theorem euron_C2_counterexample :
    interpret "out = 3.5!" = .error (.syn (.expected .ID .FACTORIAL)) ∧
    interpret "out = (-2)!" = .error (.syn (.expected .ID .FACTORIAL)) :=
  ⟨by decide, by decide⟩

/-- Claim C2 (amended): the evaluator computes factorial by iterative
accumulation from `1`, multiplying the integers `i` from `2` while the
counter stays at most the operand, so every negative operand yields `1` and
every operand yields the product of the integers from `2` up to the greatest
integer below or at the operand; the example programs must use the prefix
syntax: `out = !3.5` binds `out` to `6` and `out = !(-2)` binds `out`
to `1`. -/
theorem euron_C2_amended (q : JSNumber) (hden : 0 < q.den) (hneg : q.toRat < 0) :
    (Calculator.factorial q).toRat = 1 ∧
    (∀ r : JSNumber, 0 < r.den →
      (Calculator.factorial r).toRat = ∏ j ∈ Finset.Icc (2 : Int) ⌊r.toRat⌋, (j : ℚ)) ∧
    (getOut "out = !3.5").map (Option.map JSNumber.toRat) = .ok (some 6) ∧
    (getOut "out = !(-2)").map (Option.map JSNumber.toRat) = .ok (some 1) := by
  refine ⟨?_, fun r hr => factorial_toRat r hr, ?_, ?_⟩
  · rw [factorial_toRat q hden]
    have h0 : ⌊q.toRat⌋ < 0 := by
      rw [Int.floor_lt]
      push_cast
      exact hneg
    rw [Finset.Icc_eq_empty (by omega), Finset.prod_empty]
  · have hrun : getOut "out = !3.5" = .ok (some ⟨6, 1⟩) := by decide
    rw [hrun]
    norm_num [Except.map, JSNumber.toRat]
  · have hrun : getOut "out = !(-2)" = .ok (some ⟨1, 1⟩) := by decide
    rw [hrun]
    norm_num [Except.map, JSNumber.toRat]

/-- Witness for C2 (amended) at the concrete operand `-2`. -/
theorem euron_C2_witness : (Calculator.factorial ⟨-2, 1⟩).toRat = 1 :=
  (euron_C2_amended ⟨-2, 1⟩ (by norm_num) (by norm_num [JSNumber.toRat])).1

/-- Claim C3: the implicit-multiplication heuristic fires exactly when the
token after a factor is of type `NUMBER`, synthesizing a `MULT` node with a
freshly parsed term; it does not fire on a following identifier or left
parenthesis, so `out = 2 3` parses as `out = 2 * 3` while `out = 2pi` and
`out = 2(3)` are syntax errors. -/
theorem euron_C3 (fuel : Nat) (v w idv : Option String) :
    Parser.term (fuel + 3) ⟨.NUMBER, v⟩ [⟨.NUMBER, w⟩] =
      .ok (.binary (.value v) .MULT (.value w), ⟨.EOF, none⟩, []) ∧
    Parser.term (fuel + 3) ⟨.NUMBER, v⟩ [⟨.ID, idv⟩] =
      .ok (.value v, ⟨.ID, idv⟩, []) ∧
    Parser.term (fuel + 3) ⟨.NUMBER, v⟩ [⟨.LPAREN, some "("⟩] =
      .ok (.value v, ⟨.LPAREN, some "("⟩, []) ∧
    parse "out = 2 3" = .ok (.stmtList [.assign ⟨.ID, some "out"⟩
      (.binary (.value (some "2")) .MULT (.value (some "3")))]) ∧
    interpret "out = 2pi" = .error (.syn (.expected .ASSIGN .EOF)) ∧
    interpret "out = 2(3)" = .error (.syn (.expected .ID .LPAREN)) :=
  ⟨rfl, rfl, rfl, rfl, by decide, by decide⟩

/-- Claim C4: statements evaluate in order (the tail of a statement list is
evaluated in the state produced by its head), the result accessor returns the
binding of `out`, so `x = 2; y = x * 3; out = y + 1` ends with `x = 2`,
`y = 6` and result `7`; a program that never assigns `out` still evaluates
successfully and its result is absent (`none`), not a default or a crash. -/
theorem euron_C4 (a : AST) (rest : List AST) (s : CalcState) :
    Calculator.visitList (a :: rest) s =
      (match Calculator.visit a s with
        | .error err => .error err
        | .ok s1 => Calculator.visitList rest s1) ∧
    (interpret "x = 2; y = x * 3; out = y + 1").map
        (fun st => ((st.scope.lookup "x").map JSNumber.toRat,
          (st.scope.lookup "y").map JSNumber.toRat,
          (Calculator.getOutput st).map JSNumber.toRat)) =
      .ok (some 2, some 6, some 7) ∧
    (getOut "x = 2").map (Option.map JSNumber.toRat) = .ok none := by
  refine ⟨rfl, ?_, ?_⟩
  · have hrun : interpret "x = 2; y = x * 3; out = y + 1" =
        .ok ⟨[("out", ⟨7, 1⟩), ("y", ⟨6, 1⟩), ("x", ⟨2, 1⟩), ("pi", piVal), ("e", eVal)], []⟩ := by
      decide
    rw [hrun]
    have hx : (([("out", (⟨7, 1⟩ : JSNumber)), ("y", ⟨6, 1⟩), ("x", ⟨2, 1⟩), ("pi", piVal),
        ("e", eVal)] : List (String × JSNumber)).lookup "x") = some ⟨2, 1⟩ := by decide
    have hy : (([("out", (⟨7, 1⟩ : JSNumber)), ("y", ⟨6, 1⟩), ("x", ⟨2, 1⟩), ("pi", piVal),
        ("e", eVal)] : List (String × JSNumber)).lookup "y") = some ⟨6, 1⟩ := by decide
    have ho : Calculator.getOutput ⟨[("out", ⟨7, 1⟩), ("y", ⟨6, 1⟩), ("x", ⟨2, 1⟩), ("pi", piVal),
        ("e", eVal)], []⟩ = some ⟨7, 1⟩ := by decide
    simp only [Except.map, hx, hy, ho, Option.map_some']
    norm_num [JSNumber.toRat]
  · have hrun : getOut "x = 2" = .ok none := by decide
    rw [hrun]
    rfl

/-- Claim C5: on an identifier not bound in the respective table the two
visitors are asymmetric: the evaluator fails with the undefined-symbol
error naming the identifier, while the printer succeeds and renders the
identifier's own text. -/
theorem euron_C5 (name : String) (s : CalcState) (st : List String)
    (h : s.scope.lookup name = none) (h1 : name ≠ "pi") (h2 : name ≠ "e") :
    Calculator.visit (.ref ⟨.ID, some name⟩) s = .error (.undefinedSymbol name) ∧
    Printer.visit (.ref ⟨.ID, some name⟩) st = .ok (name :: st) := by
  constructor
  · simp only [Calculator.visit, Option.getD]
    rw [h]
  · simp only [Printer.visit, Option.getD, Printer.constTable]
    rw [if_neg h1, if_neg h2]

/-- Witness for C5 at the unbound identifier `z` in the initial scope. -/
theorem euron_C5_witness :
    Calculator.visit (.ref ⟨.ID, some "z"⟩) ⟨initScope, []⟩ = .error (.undefinedSymbol "z") ∧
    Printer.visit (.ref ⟨.ID, some "z"⟩) [] = .ok ("z" :: []) :=
  euron_C5 "z" ⟨initScope, []⟩ [] (by decide) (by decide) (by decide)

/-- Counterexample to C8 as stated: at a cursor position on a space followed
by a newline, the whitespace skip consumes the newline as well (the
JavaScript whitespace class matches the newline), so the next token of the
input space-newline-five is the number `5`, and the input space-newline
lexes to no tokens at all — the newline never produces an end-of-line
token. -/
theorem euron_C8_counterexample :
    Lexer.nextToken [' ', '\n', '5'] = .ok (⟨.NUMBER, some "5"⟩, []) ∧
    Lexer.tokenize " \n" = .ok [] := ⟨by decide, by decide⟩

/-- Claim C8 (amended): the whitespace skip triggered by a horizontal
whitespace character consumes the maximal run of JavaScript whitespace
characters — including newlines — and a newline produces its own `EOL`
token exactly when the cursor lands directly on it. -/
theorem euron_C8_amended (c : Char) (cs : List Char) (h : Lexer.isHorizontalWS c = true) :
    Lexer.nextToken (c :: cs) = Lexer.nextToken (cs.dropWhile Lexer.isWhiteSpace) ∧
    (∀ ds : List Char, Lexer.nextToken ('\n' :: ds) = .ok (⟨.EOL, some "\n"⟩, ds)) := by
  constructor
  · rw [Lexer.nextToken, Lexer.nextToken]
    have e1 : Lexer.nextTokenF ((c :: cs).length + 1) (c :: cs) =
        Lexer.nextTokenF (cs.length + 1) ((c :: cs).dropWhile Lexer.isWhiteSpace) := by
      simp only [List.length_cons, Lexer.nextTokenF, if_pos h]
    rw [e1, List.dropWhile_cons, if_pos (isHorizontalWS_isWhiteSpace c h)]
    apply nextTokenF_congr
    · have := dropWhile_length_le Lexer.isWhiteSpace cs
      omega
    · omega
  · intro ds
    rfl

/-- Witness for C8 (amended) at a space followed by a newline. -/
theorem euron_C8_witness :
    Lexer.nextToken [' ', '\n', '5'] =
      Lexer.nextToken (List.dropWhile Lexer.isWhiteSpace ['\n', '5']) :=
  (euron_C8_amended ' ' ['\n', '5'] rfl).1

/-- Claim C9: built-in constants are not protected from reassignment: an
assignment always prepends its binding to the symbol table, so the assigned
name thereafter resolves to the new value; the lexer normalizes any case
variant of `pi` and `e` to the lowercase token value, so both
`pi = 5; out = pi` and `PI = 5; out = pi` bind `out` to `5`. -/
theorem euron_C9 (id : Token) (e : AST) (s s1 : CalcState)
    (h : Calculator.visit (.assign id e) s = .ok s1) :
    (∃ v scope0, s1.scope = (id.value.getD "null", v) :: scope0 ∧
      s1.scope.lookup (id.value.getD "null") = some v) ∧
    (getOut "pi = 5; out = pi").map (Option.map JSNumber.toRat) = .ok (some 5) ∧
    (getOut "PI = 5; out = pi").map (Option.map JSNumber.toRat) = .ok (some 5) ∧
    Lexer.nextToken "PI".data = .ok (⟨.ID, some "pi"⟩, []) ∧
    Lexer.nextToken "E".data = .ok (⟨.ID, some "e"⟩, []) := by
  refine ⟨?_, ?_, ?_, by decide, by decide⟩
  · simp only [Calculator.visit] at h
    cases h1 : Calculator.visit e s with
    | error err => rw [h1] at h; simp at h
    | ok s2 =>
      rw [h1] at h
      simp only [] at h
      cases h2 : s2.stack with
      | nil => rw [h2] at h; simp at h
      | cons v tail =>
        rw [h2] at h
        simp only [] at h
        cases h
        exact ⟨v, s2.scope, rfl, by simp [List.lookup]⟩
  · have hrun : getOut "pi = 5; out = pi" = .ok (some ⟨5, 1⟩) := by decide
    rw [hrun]
    norm_num [Except.map, JSNumber.toRat]
  · have hrun : getOut "PI = 5; out = pi" = .ok (some ⟨5, 1⟩) := by decide
    rw [hrun]
    norm_num [Except.map, JSNumber.toRat]

/-- Witness for C9: assigning `pi = 5` concretely. -/
theorem euron_C9_witness :
    (getOut "pi = 5; out = pi").map (Option.map JSNumber.toRat) = .ok (some 5) :=
  (euron_C9 ⟨.ID, some "pi"⟩ (.value (some "5")) ⟨initScope, []⟩
    ⟨("pi", ⟨5, 1⟩) :: initScope, []⟩ (by decide)).2.1

/-- Counterexample to C6 as stated: in `2 * 3 ^ 4` the right operand is a
`BinaryExpr` with operator `POW` while the parent is `MULT`; the claim's
condition says it must be parenthesized, but the printer renders it bare:
the JavaScript condition has a detached `right.token === POW` disjunct. -/
theorem euron_C6_counterexample :
    Printer.visit (.binary (.value (some "2")) .MULT
        (.binary (.value (some "3")) .POW (.value (some "4")))) [] =
      .ok ["2 &times; 3<sup>4</sup>"] ∧
    Printer.rightBareClaim .MULT (.binary (.value (some "3")) .POW (.value (some "4"))) = false ∧
    Printer.rightBare .MULT (.binary (.value (some "3")) .POW (.value (some "4"))) = true :=
  ⟨by decide, by decide, by decide⟩

/-- Claim C6 (amended): a binary node's right operand is rendered bare
exactly when it is a literal, a factorial, a reference, the parent operator
is `POW`, or it is a binary node whose operator is `DIVI`, equal to the
parent's operator, or `POW` (the added case); otherwise it is wrapped in
parentheses.  Stated compositionally: the rendering of a binary node is
`resolve` applied to the sub-renderings wrapped per `leftBare` and
`rightBare`. -/
theorem euron_C6_amended (tok : TokenType) (l r : AST) (st : List String) (ls rs : String)
    (hle : l.isExprNode = true) (hre : r.isExprNode = true)
    (hl : Printer.visit l [] = .ok [ls]) (hr : Printer.visit r [] = .ok [rs]) :
    Printer.visit (.binary l tok r) st =
      (Printer.resolve tok (if Printer.leftBare tok l then ls else "(" ++ ls ++ ")")
        (if Printer.rightBare tok r then rs else "(" ++ rs ++ ")")).map (· :: st) := by
  rcases printer_frame l hle with ⟨outl, hfl⟩ | ⟨err, hfl⟩
  swap
  · rw [hfl []] at hl
    simp at hl
  rcases printer_frame r hre with ⟨outr, hfr⟩ | ⟨err, hfr⟩
  swap
  · rw [hfr []] at hr
    simp at hr
  have hol : outl = ls := by
    have he := hfl []
    rw [he] at hl
    simpa using hl
  have hor : outr = rs := by
    have he := hfr []
    rw [he] at hr
    simpa using hr
  subst hol
  subst hor
  simp only [Printer.visit]
  rw [hfl st]
  simp only []
  rw [hfr st]
  simp only []
  cases h4 : Printer.resolve tok
      (if Printer.leftBare tok l then outl else "(" ++ outl ++ ")")
      (if Printer.rightBare tok r then outr else "(" ++ outr ++ ")") with
  | error err => rfl
  | ok res => rfl

/-- Witness for C6 (amended) on a product of two literals. -/
theorem euron_C6_witness :
    Printer.visit (.binary (.value (some "1")) .MULT (.value (some "2"))) [] =
      (Printer.resolve .MULT
        (if Printer.leftBare .MULT (.value (some "1")) then "1" else "(" ++ "1" ++ ")")
        (if Printer.rightBare .MULT (.value (some "2")) then "2" else "(" ++ "2" ++ ")")).map
          (· :: []) :=
  euron_C6_amended .MULT (.value (some "1")) (.value (some "2")) [] "1" "2" rfl rfl rfl rfl

/-- Counterexample to C7 as stated: a unary node with a `RefExpr` operand is
parenthesized by the printer (minus pi renders with parentheses around the
pi glyph), although the claim's condition says references stay bare: the
unary printer checks only `ValueExpr` and `FactorialExpr`, unlike the
factorial printer. -/
theorem euron_C7_counterexample :
    Printer.visit (.unary .MINUS (.ref ⟨.ID, some "pi"⟩)) [] = .ok ["&minus;(&pi;)"] ∧
    Printer.unaryFactorialBareClaim (.ref ⟨.ID, some "pi"⟩) = true :=
  ⟨by decide, by decide⟩

/-- Claim C7 (amended): a factorial node leaves its operand bare iff it is a
literal, a factorial, or a reference, but a unary node leaves its operand
bare only iff it is a literal or a factorial — a reference operand of a
unary node is parenthesized. -/
theorem euron_C7_amended (op : TokenType) (e : AST) (st : List String) (s : String)
    (he : e.isExprNode = true) (h : Printer.visit e [] = .ok [s]) :
    Printer.visit (.unary op e) st =
      .ok (((if op = TokenType.MINUS then "&minus;" else "") ++
        (if e.isValueExpr || e.isFactorialExpr then s else "(" ++ s ++ ")")) :: st) ∧
    Printer.visit (.factorial e) st =
      .ok ((if e.isValueExpr || e.isFactorialExpr || e.isRefExpr
        then "!" ++ s else "!(" ++ s ++ ")") :: st) := by
  rcases printer_frame e he with ⟨out, hf⟩ | ⟨err, hf⟩
  swap
  · rw [hf []] at h
    simp at h
  have ho : out = s := by
    have he2 := hf []
    rw [he2] at h
    simpa using h
  subst ho
  constructor
  · simp only [Printer.visit]
    rw [hf st]
    simp only []
    split <;> simp [*, String.append_assoc]
  · simp only [Printer.visit]
    rw [hf st]
    simp only []
    split <;> simp [*, String.append_assoc]

/-- Witness for C7 (amended) on the literal operand `1`. -/
theorem euron_C7_witness :
    Printer.visit (.unary .MINUS (.value (some "1"))) [] =
      .ok (((if TokenType.MINUS = TokenType.MINUS then "&minus;" else "") ++
        (if (AST.value (some "1")).isValueExpr || (AST.value (some "1")).isFactorialExpr
          then "1" else "(" ++ "1" ++ ")")) :: []) ∧
    Printer.visit (.factorial (.value (some "1"))) [] =
      .ok ((if (AST.value (some "1")).isValueExpr || (AST.value (some "1")).isFactorialExpr
          || (AST.value (some "1")).isRefExpr
        then "!" ++ "1" else "!(" ++ "1" ++ ")") :: []) :=
  euron_C7_amended .MINUS (.value (some "1")) [] "1" rfl rfl

/-- Claim C10: the evaluator's accumulator stack is balanced: visiting any
expression node pushes exactly one value, visiting an assignment of an
expression leaves the height unchanged, and after the evaluator finishes the
root statement list of any successfully parsed program the stack is empty. -/
theorem euron_C10 (input : String) (p : AST) (s1 : CalcState)
    (h1 : parse input = .ok p) (h2 : Calculator.visit p ⟨initScope, []⟩ = .ok s1) :
    s1.stack = [] ∧
    (∀ e t t1, AST.isExprNode e = true → Calculator.visit e t = .ok t1 →
      t1.scope = t.scope ∧ ∃ v, t1.stack = v :: t.stack) ∧
    (∀ idTok e t t1, AST.isExprNode e = true →
      Calculator.visit (.assign idTok e) t = .ok t1 → t1.stack = t.stack) := by
  refine ⟨?_, fun e t t1 he hv => visit_expr_stack e he t t1 hv,
    fun idTok e t t1 he hv =>
      visit_statement_stack (.assign idTok e) (by simpa [AST.isWfStatement] using he) t t1 hv⟩
  have hwf := parse_wf input p h1
  cases p with
  | stmtList stmts =>
    simp only [AST.isWfProgram] at hwf
    simp only [Calculator.visit] at h2
    exact visitList_stack stmts hwf _ _ h2
  | unary op e => simp [AST.isWfProgram] at hwf
  | value num => simp [AST.isWfProgram] at hwf
  | ref tok => simp [AST.isWfProgram] at hwf
  | factorial e => simp [AST.isWfProgram] at hwf
  | binary l t r => simp [AST.isWfProgram] at hwf
  | assign id e => simp [AST.isWfProgram] at hwf

/-- Witness for C10 on the program `out = 1`. -/
theorem euron_C10_witness :
    (⟨[("out", ⟨1, 1⟩), ("pi", piVal), ("e", eVal)], []⟩ : CalcState).stack = [] :=
  (euron_C10 "out = 1"
    (.stmtList [.assign ⟨.ID, some "out"⟩ (.value (some "1"))])
    ⟨[("out", ⟨1, 1⟩), ("pi", piVal), ("e", eVal)], []⟩
    rfl (by decide)).1

end Euron
